import Mathlib

/-!
Verification of the audio2strudel analysis pipeline against its specification.

The development shallowly embeds the pipeline of the repository
(the single-file page, the batch page, and the sequence-file encoder
in midi-export.ts) into Lean.  JavaScript numbers are modelled as exact
rationals; the two transcendental library calls (Math.sqrt, Math.log2)
are modelled by computable functions that agree with the real functions
exactly on the arguments at which the theorems below consult them
(perfect squares, respectively exact powers of two); each such use site
is noted where it occurs.
-/

set_option maxRecDepth 8000

namespace A2S

/-- JavaScript Math.round: round half up, i.e. floor(x + 1/2). -/
def jsRound (q : ℚ) : ℤ := ⌊q + 1/2⌋

/-- Truncation toward zero, as used by the JavaScript % operator. -/
def ratTrunc (q : ℚ) : ℤ := if 0 ≤ q then ⌊q⌋ else ⌈q⌉

/-- JavaScript % on fractional numbers: a - b * trunc (a / b). -/
def jsFmod (a b : ℚ) : ℚ := a - b * ratTrunc (a / b)

/-- Bisection step for the integer square root (fuelled binary search;
fuel 64 covers every argument below 2^64, far beyond any value arising here). -/
def natSqrtAux (n : ℕ) : ℕ → ℕ → ℕ → ℕ
  | 0, lo, _ => lo
  | (fuel+1), lo, hi =>
    let mid := (lo + hi) / 2
    if mid = lo then lo
    else if mid * mid ≤ n then natSqrtAux n fuel mid hi
    else natSqrtAux n fuel lo mid

/-- Integer square root (exact on perfect squares). -/
def natSqrt (n : ℕ) : ℕ := natSqrtAux n 64 0 (n + 1)

/-- Model of JavaScript Math.sqrt on rationals.  It is exact whenever
numerator and denominator are perfect squares; every comparison in the
theorems below consults it only at such points (or at 0), where it
coincides with the real square root. -/
def jsSqrt (q : ℚ) : ℚ := (natSqrt q.num.toNat : ℚ) / (natSqrt q.den : ℚ)

/-- Fuelled base-two logarithm on naturals (floor). -/
def natLog2Aux : ℕ → ℕ → ℕ
  | 0, _ => 0
  | (fuel+1), n => if n ≤ 1 then 0 else 1 + natLog2Aux fuel (n / 2)

/-- Floor base-two logarithm (fuel 64 covers all arguments below 2^64). -/
def natLog2 (n : ℕ) : ℕ := natLog2Aux 64 n

/-- Model of JavaScript Math.log2 on rationals.  It is exact whenever the
argument is an integral power of two (2^z for z : ℤ); every theorem below
consults it only at such points, where it coincides with the real log2.
Other arguments fall back to 0 and are never consulted. -/
def jsLog2 (q : ℚ) : ℚ :=
  if q.num = 1 ∧ q.den = 2 ^ natLog2 q.den then -(natLog2 q.den : ℚ)
  else if q.den = 1 ∧ q.num = 2 ^ natLog2 q.num.toNat then (natLog2 q.num.toNat : ℚ)
  else 0

/-- Sum of n consecutive values f lo + f (lo+1) + ... + f (lo+n-1), the
shape of every accumulation loop (corr += ..., rms += ..., energy += ...)
in the source; the count comes first, the start index second. -/
def linSum (f : ℕ → ℚ) : ℕ → ℕ → ℚ
  | 0, _ => 0
  | (n+1), lo => f lo + linSum f n (lo+1)

/-- A decoded sample buffer: Float32Array modelled as its length together
with a total index function (all in-range accesses used by the source are
covered; out-of-range entries are irrelevant to every loop below). -/
structure Buf where
  len : ℕ
  at' : ℕ → ℚ

/-- Float32Array.prototype.slice(s, e) (the source always slices in range). -/
def bufSlice (b : Buf) (s e : ℕ) : Buf :=
  ⟨min e b.len - s, fun k => b.at' (s + k)⟩

/-- Chromatic note-name table of the analysis page (lower case, sharps as s). -/
def noteNames : List String :=
  ["c", "cs", "d", "ds", "e", "f", "fs", "g", "gs", "a", "as", "b"]

/-- Unnormalized autocorrelation of a frame at one lag:
for (i = 0; i < frame.length - period; i++) corr += frame[i] * frame[i+period]. -/
def autoCorr (frame : Buf) (period : ℕ) : ℚ :=
  linSum (fun i => frame.at' i * frame.at' (i + period)) (frame.len - period) 0

/-- One step of detectPitch's lag search: update (bestPeriod, maxCorr)
only on a strictly larger correlation. -/
def pitchStep (frame : Buf) (st : ℕ × ℚ) (period : ℕ) : ℕ × ℚ :=
  if autoCorr frame period > st.2 then (period, autoCorr frame period) else st

/-- The lag search of detectPitch: over periods in
[minPeriod, maxPeriod), track (bestPeriod, maxCorr) starting from (0, 0). -/
def pitchSearch (frame : Buf) (minPeriod maxPeriod : ℕ) : ℕ × ℚ :=
  (List.range' minPeriod (maxPeriod - minPeriod)).foldl (pitchStep frame) ((0 : ℕ), (0 : ℚ))

/-- detectPitch of the single-file page: unnormalized autocorrelation over
lags in [floor(sr/1000), floor(sr/80)) with minFreq = 80, maxFreq = 1000;
returns sr / bestPeriod, or 0 when no lag had positive correlation. -/
def detectPitch (frame : Buf) (sampleRate : ℚ) : ℚ :=
  let best := pitchSearch frame ((⌊sampleRate / 1000⌋).toNat) ((⌊sampleRate / 80⌋).toNat)
  if best.1 > 0 then sampleRate / (best.1 : ℚ) else 0

/-- Half steps above C0 of a frequency.  The source computes
12 * log2 (freq / c0) with c0 = 440 * 2^(-4.75); since
12 * log2 (f / c0) = 12 * log2 (f / 440) + 57 exactly, the embedding
folds the irrational constant away and consults log2 at f / 440. -/
def halfStepsFromC0 (freq : ℚ) : ℚ := 12 * jsLog2 (freq / 440) + 57

/-- frequencyToNote of the single-file page: below 50 Hz yields "rest",
otherwise octave = floor(halfSteps / 12) and pitch class =
round(halfSteps % 12) normalised into 0..11 (JavaScript % is truncated). -/
def frequencyToNote (freq : ℚ) : String :=
  if freq < 50 then "rest"
  else
    let halfSteps := halfStepsFromC0 freq
    let octave : ℤ := ⌊halfSteps / 12⌋
    let note : ℤ := jsRound (jsFmod halfSteps 12)
    let clampedNote : ℤ := ((note.tmod 12) + 12).tmod 12
    (noteNames.getD clampedNote.toNat "") ++ toString octave

/-- frequencyToPitchClass of the single-file page: -1 below 50 Hz, else
round(halfSteps) reduced mod 12 into 0..11. -/
def frequencyToPitchClass (freq : ℚ) : ℤ :=
  if freq < 50 then -1
  else (((jsRound (halfStepsFromC0 freq)).tmod 12) + 12).tmod 12

/-- Analysis parameters (the fields and defaults of the parameter form). -/
structure AnalysisParams where
  autoDetectTempo : Bool
  targetTempo : ℚ
  autoDetectKey : Bool
  targetKey : String
  timeSignature : String
  minNoteDuration : ℚ
  pitchSensitivity : ℚ
  quantizeNotes : Bool
  quantizeValue : String

/-- Default analysis parameters of the parameter form. -/
def defaultAnalysisParams : AnalysisParams :=
  ⟨true, 120, true, "C", "4/4", 50, 70, true, "1/16"⟩

/-- A melody note as in the shared schema: pitch token, onset seconds,
optional duration and velocity. -/
structure Note where
  note : String
  time : ℚ
  duration : Option ℚ
  velocity : Option ℚ
deriving DecidableEq

/-- A chord as in the shared schema. -/
structure Chord where
  notes : List String
  name : String
  time : ℚ
  duration : Option ℚ
deriving DecidableEq

/-- Mutable state of the note-segmentation loop: accumulated notes, the
current pitch token (empty when no note is in progress), its start time,
and the pitch-class histogram. -/
structure MelState where
  notes : List Note
  lastNote : String
  noteStartTime : ℚ
  hist : List ℚ
deriving DecidableEq

/-- RMS threshold of the single-file page: 0.01 * (pitchSensitivity / 100). -/
def rmsThreshold (params : AnalysisParams) : ℚ :=
  (1/100) * (params.pitchSensitivity / 100)

/-- Minimum note duration in seconds. -/
def minDurationOf (params : AnalysisParams) : ℚ := params.minNoteDuration / 1000

/-- Closing a note: push it when its duration strictly exceeds the
minimum (the source tests duration > minDuration); no velocity is set. -/
def pushIfLong (params : AnalysisParams) (notes : List Note)
    (name : String) (startT endT : ℚ) : List Note :=
  if endT - startT > minDurationOf params then
    notes ++ [⟨name, startT, some (endT - startT), none⟩]
  else notes

/-- The frame starting at sample i: data.slice(i, i + 4096). -/
def frameOf (data : Buf) (i : ℕ) : Buf := bufSlice data i (i + 4096)

/-- RMS amplitude of a frame: sqrt of the mean square. -/
def frameRms (frame : Buf) : ℚ :=
  jsSqrt (linSum (fun j => frame.at' j * frame.at' j) frame.len 0 / (frame.len : ℚ))

/-- One iteration of the single-file page's extractMelody loop at frame
start i.  A silent frame (rms below threshold) closes any in-progress
note; otherwise the pitch is detected, the histogram accumulates the
frame RMS at the detected pitch class, and a changed non-rest pitch name
closes the previous note and starts a new one.  A "rest" name leaves the
note state untouched. -/
def melStep (data : Buf) (sampleRate : ℚ) (params : AnalysisParams)
    (st : MelState) (i : ℕ) : MelState :=
  let frame := frameOf data i
  let rms := frameRms frame
  if rms < rmsThreshold params then
    if st.lastNote ≠ "" ∧ st.lastNote ≠ "rest" then
      ⟨pushIfLong params st.notes st.lastNote st.noteStartTime ((i : ℚ) / sampleRate),
        "", st.noteStartTime, st.hist⟩
    else st
  else
    let pitch := detectPitch frame sampleRate
    let note := frequencyToNote pitch
    let pitchClass := frequencyToPitchClass pitch
    let hist2 :=
      if 0 ≤ pitchClass then
        st.hist.set pitchClass.toNat (st.hist.getD pitchClass.toNat 0 + rms)
      else st.hist
    if note ≠ "rest" ∧ note ≠ st.lastNote then
      ⟨(if st.lastNote ≠ "" ∧ st.lastNote ≠ "rest" then
          pushIfLong params st.notes st.lastNote st.noteStartTime ((i : ℚ) / sampleRate)
        else st.notes),
        note, (i : ℚ) / sampleRate, hist2⟩
    else ⟨st.notes, st.lastNote, st.noteStartTime, hist2⟩

/-- Frame start indices of the loop
for (i = 0; i < data.length - frameSize; i += hopSize) with
frameSize = 4096, hopSize = 2048 (empty when the buffer is too short). -/
def frameIndices (len : ℕ) : List ℕ :=
  (List.range (((len - 4096) + 2047) / 2048)).map (fun k => k * 2048)

/-- Initial segmentation state: no notes, empty current pitch, zero
histogram. -/
def melInit : MelState := ⟨[], "", 0, List.replicate 12 0⟩

/-- The segmentation loop over all frames, before the final flush. -/
def melLoop (data : Buf) (sampleRate : ℚ) (params : AnalysisParams) : MelState :=
  (frameIndices data.len).foldl (melStep data sampleRate params) melInit

/-- After the loop, a still-open note is flushed with the total buffer
duration as its end. -/
def melFlush (data : Buf) (sampleRate : ℚ) (params : AnalysisParams)
    (st : MelState) : MelState :=
  if st.lastNote ≠ "" ∧ st.lastNote ≠ "rest" then
    ⟨pushIfLong params st.notes st.lastNote st.noteStartTime ((data.len : ℚ) / sampleRate),
      st.lastNote, st.noteStartTime, st.hist⟩
  else st

/-- The full segmented note list before the 64-note cap. -/
def extractMelodyRaw (data : Buf) (sampleRate : ℚ) (params : AnalysisParams) :
    List Note :=
  (melFlush data sampleRate params (melLoop data sampleRate params)).notes

/-- extractMelody of the single-file page: the segmentation loop, the
final flush, and the notes.slice(0, 64) cap, together with the
RMS-weighted pitch-class histogram. -/
def extractMelody (data : Buf) (sampleRate : ℚ) (params : AnalysisParams) :
    List Note × List ℚ :=
  ((extractMelodyRaw data sampleRate params).take 64,
    (melLoop data sampleRate params).hist)

/-- Inner loop of the single-file page's detectTempo: starting at a
given offset, walk the onset-strength envelope in steps of beatInterval,
summing the entry at floor(beat).  The source's in-range check on the
index is subsumed by getD (an out-of-range index cannot occur, since the
loop condition already bounds beat).  The guard 0 < step reflects that
the caller only ever passes a positive beat interval. -/
def beatLoop (os : List ℚ) (step : ℚ) (beat : ℚ) : ℚ :=
  if h : 0 < step ∧ beat < (os.length : ℚ) then
    os.getD (⌊beat⌋).toNat 0 + beatLoop os step (beat + step)
  else 0
termination_by (⌈((os.length : ℚ) - beat) / step⌉).toNat
decreasing_by
  obtain ⟨hs, hb⟩ := h
  have hpos : 0 < ((os.length : ℚ) - beat) / step := div_pos (by linarith) hs
  have hstep : ((os.length : ℚ) - (beat + step)) / step
      = ((os.length : ℚ) - beat) / step - 1 := by
    field_simp
    ring
  rw [hstep, Int.ceil_sub_one]
  have h1 : 0 < ⌈((os.length : ℚ) - beat) / step⌉ := Int.ceil_pos.mpr hpos
  omega

/-- The per-BPM score: the maximum over integer offsets 0 ≤ offset <
beatInterval of the beat-grid sum (score starts at 0). -/
def bestOffsetScore (os : List ℚ) (beatInterval : ℚ) : ℚ :=
  (List.range (⌈beatInterval⌉.toNat)).foldl
    (fun score offset => max score (beatLoop os beatInterval (offset : ℚ))) 0

/-- Frame starts of detectTempo's energy envelope
(for (i = 0; i < data.length - frameSize; i += hopSize), frame 1024, hop 512). -/
def tempoFrameStarts (len : ℕ) : List ℕ :=
  (List.range (((len - 1024) + 511) / 512)).map (fun k => k * 512)

/-- The BPM scan of the single-file page's detectTempo: over candidate
tempos 60..200, keep the first strictly-best (bpm, score), starting from
(120, 0). -/
def tempoBpmFold (onsetStrength : List ℚ) (sampleRate : ℚ) : ℚ × ℚ :=
  (List.range' 60 141).foldl
    (fun st (bpm : ℕ) =>
      let beatInterval := (60 / (bpm : ℚ)) * (sampleRate / 512)
      let score := bestOffsetScore onsetStrength beatInterval
      if score > st.2 then ((bpm : ℚ), score) else st)
    ((120 : ℚ), (0 : ℚ))

/-- detectTempo of the single-file page: RMS energy envelope, positive
first-difference onset strength, then the best-scoring BPM in 60..200
(starting value 120, strict improvement required). -/
def detectTempo (data : Buf) (sampleRate : ℚ) : ℚ :=
  let energies := (tempoFrameStarts data.len).map
    (fun i => jsSqrt (linSum (fun j => data.at' (i + j) * data.at' (i + j)) 1024 0 / 1024))
  let onsetStrength := (energies.zip energies.tail).map (fun p => max 0 (p.2 - p.1))
  (tempoBpmFold onsetStrength sampleRate).1

/-- Krumhansl major profile (decimals written as exact fractions). -/
def majorProfile : List ℚ :=
  [635/100, 223/100, 348/100, 233/100, 438/100, 409/100,
   252/100, 519/100, 239/100, 366/100, 229/100, 288/100]

/-- Krumhansl minor profile. -/
def minorProfile : List ℚ :=
  [633/100, 268/100, 352/100, 538/100, 260/100, 353/100,
   254/100, 475/100, 398/100, 269/100, 334/100, 317/100]

/-- Upper-case note names used for key labels in the single-file page
(one array literal in the source; split here purely for layout). -/
def noteNamesUpper : List String :=
  ["C", "C#", "D", "D#", "E", "F"] ++ ["F#", "G", "G#", "A", "A#", "B"]

/-- normalize of detectKey: divide by the sum when it is positive,
otherwise return the array unchanged. -/
def normalizeArr (arr : List ℚ) : List ℚ :=
  let s := arr.foldl (· + ·) 0
  if s > 0 then arr.map (fun v => v / s) else arr

/-- Twelve-bucket dot product (for (i = 0; i < 12; i++) corr += a[i]*b[i]). -/
def dot12 (a b : List ℚ) : ℚ := linSum (fun i => a.getD i 0 * b.getD i 0) 12 0

/-- Strictly-greater test against a running best that starts at
-Infinity; the missing value is modelled as none. -/
def gtOptQ (x : ℚ) : Option ℚ → Bool
  | none => true
  | some c => decide (x > c)

/-- detectKey of the single-file page: normalise the histogram, rotate
and normalise both profiles for each of the 12 tonics, track the single
best dot product (major tested before minor at each shift), default "C". -/
def detectKey (hist : List ℚ) : String :=
  let normalizedHist := normalizeArr hist
  let best := (List.range 12).foldl
    (fun st shift =>
      let shiftedMajor := (List.range 12).map
        (fun i => majorProfile.getD ((i + shift) % 12) 0)
      let shiftedMinor := (List.range 12).map
        (fun i => minorProfile.getD ((i + shift) % 12) 0)
      let majorCorr := dot12 normalizedHist (normalizeArr shiftedMajor)
      let minorCorr := dot12 normalizedHist (normalizeArr shiftedMinor)
      let st1 := if gtOptQ majorCorr st.2
        then (noteNamesUpper.getD shift "", some majorCorr) else st
      if gtOptQ minorCorr st1.2
        then (noteNamesUpper.getD shift "" ++ "m", some minorCorr) else st1)
    (("C", (none : Option ℚ)))
  best.1

/-- JavaScript || with a numeric default: undefined and 0 are falsy. -/
def jsOrQ (o : Option ℚ) (dflt : ℚ) : ℚ :=
  match o with
  | some x => if x = 0 then dflt else x
  | none => dflt

/-- quantizeMap lookup with the || 0.25 default (the stored grid
fractions are nonzero, so || only fires on a missing key). -/
def quantizeMapGet (v : String) : ℚ :=
  if v = "1/4" then 1
  else if v = "1/8" then 1/2
  else if v = "1/16" then 1/4
  else if v = "1/32" then 1/8
  else 1/4

/-- quantizeNotes of the single-file page: "none" is the identity;
otherwise onsets round to the nearest grid multiple and durations round
the same way but are floored at one grid unit.  A zero or missing
duration is falsy in JavaScript and maps to undefined. -/
def quantizeNotes (notes : List Note) (tempo : ℚ) (quantizeValue : String) :
    List Note :=
  if quantizeValue = "none" then notes
  else
    let beatDuration := 60 / tempo
    let gridSize := beatDuration * quantizeMapGet quantizeValue
    notes.map (fun n =>
      ⟨n.note,
        ((jsRound (n.time / gridSize) : ℚ)) * gridSize,
        (match n.duration with
         | some d =>
           if d = 0 then none
           else some (max gridSize ((jsRound (d / gridSize) : ℚ) * gridSize))
         | none => none),
        n.velocity⟩)

/-- Octave-doubling loop of the batch page: while (tempo < 60) tempo *= 2. -/
def foldUp (t : ℚ) : ℚ :=
  if h : 0 < t ∧ t < 60 then foldUp (2 * t) else t
termination_by (⌈(60 : ℚ) / t⌉).toNat
decreasing_by
  obtain ⟨ht, h60⟩ := h
  have hx : (1 : ℚ) < 60 / t := (one_lt_div ht).mpr h60
  have hrw : (60 : ℚ) / (2 * t) = (60 / t) / 2 := by
    field_simp
    ring
  rw [hrw]
  have h2 : 1 < ⌈(60 : ℚ) / t⌉ := by
    rw [Int.lt_ceil]
    exact_mod_cast hx
  have hle : ⌈(60 / t : ℚ) / 2⌉ ≤ ⌈(60 : ℚ) / t⌉ - 1 := by
    rw [Int.ceil_le]
    push_cast
    have := Int.le_ceil ((60 : ℚ) / t)
    have hc2 : (2 : ℚ) ≤ (⌈(60 : ℚ) / t⌉ : ℚ) := by exact_mod_cast h2
    linarith
  omega

/-- Octave-halving loop of the batch page: while (tempo > 200) tempo /= 2. -/
def foldDown (t : ℚ) : ℚ :=
  if h : 200 < t then foldDown (t / 2) else t
termination_by (⌈t / 200⌉).toNat
decreasing_by
  have hx : (1 : ℚ) < t / 200 := by
    rw [lt_div_iff (by norm_num : (0:ℚ) < 200)]
    linarith
  have hrw : (t / 2) / 200 = (t / 200) / 2 := by ring
  rw [hrw]
  have h2 : 1 < ⌈t / 200⌉ := by
    rw [Int.lt_ceil]
    exact_mod_cast hx
  have hle : ⌈(t / 200 : ℚ) / 2⌉ ≤ ⌈t / 200⌉ - 1 := by
    rw [Int.ceil_le]
    push_cast
    have := Int.le_ceil (t / 200)
    have hc2 : (2 : ℚ) ≤ (⌈t / 200⌉ : ℚ) := by exact_mod_cast h2
    linarith
  omega

/-- The 50 ms window length of the batch page's detectTempo, in samples. -/
def tempoWindow (sampleRate : ℚ) : ℕ := (⌊sampleRate * (5/100)⌋).toNat

/-- The 50 ms window energies of the batch page's detectTempo. -/
def energyList (data : Buf) (windowSize : ℕ) : List ℚ :=
  (List.range (((data.len - windowSize) + (windowSize - 1)) / windowSize)).map
    (fun k => linSum
      (fun j => data.at' (k * windowSize + j) * data.at' (k * windowSize + j))
      windowSize 0)

/-- The onset times of the batch page's detectTempo: window indices whose
energy exceeds 1.5 times the previous window and the 0.01 floor,
converted to seconds. -/
def onsetTimes (energyValues : List ℚ) (windowSize : ℕ) (sampleRate : ℚ) : List ℚ :=
  ((List.range' 1 (energyValues.length - 1)).filter
      (fun i => decide (energyValues.getD i 0 > energyValues.getD (i - 1) 0 * (3/2))
        && decide (energyValues.getD i 0 > 1/100))).map
    (fun (i : ℕ) => (i : ℚ) * (windowSize : ℚ) / sampleRate)

/-- detectTempo of the batch page: 50 ms energy windows, onsets where the
energy exceeds 1.5 times the previous window and an absolute floor of
0.01, mean inter-onset interval inverted and octave-folded into 60..200,
rounded; fewer than two onsets default to 120.  (With a window size of 0
the JavaScript loop would not terminate; the embedding then produces an
empty envelope, and the bounds theorem below assumes a sample rate of at
least 20 so that the window is nonempty.) -/
def detectTempoB (data : Buf) (sampleRate : ℚ) : ℚ :=
  let windowSize := tempoWindow sampleRate
  let onsets := onsetTimes (energyList data windowSize) windowSize sampleRate
  if onsets.length < 2 then 120
  else
    let intervals := (onsets.zip onsets.tail).map (fun p => p.2 - p.1)
    let avgInterval := intervals.foldl (· + ·) 0 / (intervals.length : ℚ)
    ((jsRound (foldDown (foldUp (60 / avgInterval))) : ℤ) : ℚ)

/-- Pitch-token parser of the batch page's detectKey
(the regex ([a-gs]+)(digits), both groups nonempty, case sensitive). -/
def parseBatchNote (s : String) : Option (String × List Char) :=
  let letters := s.data.takeWhile
    (fun c => c = 'a' ∨ c = 'b' ∨ c = 'c' ∨ c = 'd' ∨ c = 'e' ∨ c = 'f' ∨ c = 'g' ∨ c = 's')
  let rest := s.data.dropWhile
    (fun c => c = 'a' ∨ c = 'b' ∨ c = 'c' ∨ c = 'd' ∨ c = 'e' ∨ c = 'f' ∨ c = 'g' ∨ c = 's')
  if letters ≠ [] ∧ rest ≠ [] ∧ rest.all Char.isDigit then
    some (String.mk letters, rest)
  else none

/-- Key label of the batch page: noteNames[i].toUpperCase().replace("S", "#").
The embedding works character by character: each ASCII lower-case letter
is upper-cased, and the letter s (which upper-cases to the replaced S) is
mapped straight to '#'.  The names hold at most one s and are pure ASCII
lower case, so this agrees exactly with JavaScript's whole-string
toUpperCase followed by a first-occurrence replace of "S". -/
def keyLabel (i : ℕ) : String :=
  String.mk ((noteNames.getD i "").data.map
    (fun c => if c = 's' then '#'
      else if 'a' ≤ c ∧ c ≤ 'z' then Char.ofNat (c.toNat - 32) else c))

/-- detectKey of the batch page: a duration-and-velocity-weighted chroma
histogram over the note list, correlated against the two key profiles at
all 12 rotations; best key starts at "C" with correlation -Infinity
(modelled as none), major tested before minor at each rotation. -/
def detectKeyB (notes : List Note) : String :=
  let chroma := notes.foldl
    (fun counts n =>
      match parseBatchNote n.note with
      | some (nm, _) =>
        let idx := noteNames.indexOf nm
        if idx < 12 then
          counts.set idx
            (counts.getD idx 0 + jsOrQ n.duration (1/4) * jsOrQ n.velocity (4/5))
        else counts
      | none => counts)
    (List.replicate 12 (0 : ℚ))
  let best := (List.range 12).foldl
    (fun st i =>
      let rotated := chroma.drop i ++ chroma.take i
      let majorCorr := linSum (fun j => rotated.getD j 0 * majorProfile.getD j 0) 12 0
      let minorCorr := linSum (fun j => rotated.getD j 0 * minorProfile.getD j 0) 12 0
      let st1 := if gtOptQ majorCorr st.2 then (keyLabel i, some majorCorr) else st
      if gtOptQ minorCorr st1.2 then (keyLabel i ++ "m", some minorCorr) else st1)
    (("C", (none : Option ℚ)))
  best.1

/-- Digit-string value (used for Number(...) on the time-signature parts). -/
def digitsToNat (cs : List Char) : ℕ :=
  cs.foldl (fun acc c => acc * 10 + (c.toNat - 48)) 0

/-- Model of JavaScript Number on strings: exact on nonempty digit
strings; all other inputs (where JavaScript yields NaN, or 0 for the
empty string) are mapped to 0 and are never consulted by the theorems
below. -/
def jsNumber (s : String) : ℚ :=
  if s.data ≠ [] ∧ s.data.all Char.isDigit then (digitsToNat s.data : ℚ) else 0

/-- Letter class accepted by the strudel-format regex ([A-Ga-g]). -/
def isStrudelLetter (c : Char) : Bool :=
  c = 'a' ∨ c = 'b' ∨ c = 'c' ∨ c = 'd' ∨ c = 'e' ∨ c = 'f' ∨ c = 'g' ∨
  c = 'A' ∨ c = 'B' ∨ c = 'C' ∨ c = 'D' ∨ c = 'E' ∨ c = 'F' ∨ c = 'G'

/-- Parser for the regex ^([A-Ga-g])([#b]?)(digits)$ of
formatNoteForStrudel: letter, optional accidental, nonempty digits. -/
def parseStrudelNote (cs : List Char) : Option (Char × Option Char × List Char) :=
  match cs with
  | [] => none
  | c :: rest =>
    if isStrudelLetter c then
      match rest with
      | a :: rest2 =>
        if (a = '#' ∨ a = 'b') ∧ rest2 ≠ [] ∧ rest2.all Char.isDigit then
          some (c, some a, rest2)
        else if rest.all Char.isDigit then some (c, none, rest)
        else none
      | [] => none
    else none

/-- formatNoteForStrudel: lower-case the letter, map a sharp to the
letter s and a flat to the letter f, keep the octave digits; strings
that do not match the pattern fall back to toLowerCase. -/
def formatNoteForStrudel (note : String) : String :=
  match parseStrudelNote note.data with
  | none => note.toLower
  | some (c, acc, oct) =>
    let strudelAccidental :=
      match acc with
      | some a => if a = '#' then "s" else if a = 'b' then "f" else ""
      | none => ""
    String.mk [c.toLower] ++ strudelAccidental ++ String.mk oct

/-- Duration-multiplier banding: durations within 0.1 beat of 0.5, 1, 2
or 4 beats get the corresponding multiplier suffix; anything else (and a
missing or zero duration, which is falsy) keeps the bare token. -/
def durToken (formatted : String) (dur : Option ℚ) (beatDuration : ℚ) : String :=
  match dur with
  | none => formatted
  | some d =>
    if d = 0 then formatted
    else
      let durationBeats := d / beatDuration
      if |durationBeats - 1/2| < 1/10 then formatted ++ "*0.5"
      else if |durationBeats - 1| < 1/10 then formatted
      else if |durationBeats - 2| < 1/10 then formatted ++ "*2"
      else if |durationBeats - 4| < 1/10 then formatted ++ "*4"
      else formatted

/-- The three generated pattern strings. -/
structure StrudelCode where
  melody : String
  chords : String
  combined : String
deriving DecidableEq

/-- Rendering of a JavaScript number into a template string.  The exact
decimal formatting is abstracted: no theorem below depends on it. -/
def jsNumToString (q : ℚ) : String :=
  if q.den = 1 then toString q.num else toString q.num ++ "/" ++ toString q.den

/-- generateStrudelCode of the single-file page: space-joined duration
tokens wrapped in a note(...).sound("piano") call, a rest pattern for an
empty list, and a combined stack with a comment header and a
cycles-per-minute suffix round(tempo / 4). -/
def generateStrudelCode (melody : List Note) (chords : List Chord)
    (tempo : ℚ) (timeSignature : String) : StrudelCode :=
  let noteValue := jsNumber ((timeSignature.splitOn "/").getD 1 "")
  let beatDuration := (60 / tempo) * (4 / noteValue)
  let melodyWithDuration := String.intercalate " "
    (melody.map (fun n => durToken (formatNoteForStrudel n.note) n.duration beatDuration))
  let melodyStrudel :=
    if melody.length > 0 then
      "note(\"" ++ melodyWithDuration ++ "\").sound(\"piano\")"
    else "note(\"~\").sound(\"piano\")"
  let chordWithDuration := String.intercalate " "
    (chords.map (fun c =>
      durToken ("[" ++ String.intercalate "," (c.notes.map formatNoteForStrudel) ++ "]")
        c.duration beatDuration))
  let chordStrudel :=
    if chords.length > 0 then
      "note(\"" ++ chordWithDuration ++ "\").sound(\"piano\")"
    else "note(\"~\").sound(\"piano\")"
  let combined :=
    "// Tempo: " ++ jsNumToString tempo ++ " BPM, Time Signature: " ++ timeSignature
      ++ "\n// Melody: " ++ toString melody.length ++ " notes, Chords: "
      ++ toString chords.length ++ " chords\nstack(\n  " ++ melodyStrudel
      ++ ",\n  " ++ chordStrudel ++ "\n).cpm(" ++ toString (jsRound (tempo / 4)) ++ ")"
  ⟨melodyStrudel, chordStrudel, combined⟩

/-- Letter class of the sequence-file encoder's pitch regex ([a-g], either case). -/
def isMidiLetter (c : Char) : Bool :=
  c = 'a' ∨ c = 'b' ∨ c = 'c' ∨ c = 'd' ∨ c = 'e' ∨ c = 'f' ∨ c = 'g' ∨
  c = 'A' ∨ c = 'B' ∨ c = 'C' ∨ c = 'D' ∨ c = 'E' ∨ c = 'F' ∨ c = 'G'

/-- parseNote of midi-export.ts: the case-insensitive regex
^([a-g]s?)(digits)$, with the matched name lower-cased and the octave
parsed as a decimal integer. -/
def parseNote (s : String) : Option (String × ℕ) :=
  match s.data with
  | [] => none
  | c :: rest =>
    if isMidiLetter c then
      match rest with
      | a :: rest2 =>
        if (a = 's' ∨ a = 'S') ∧ rest2 ≠ [] ∧ rest2.all Char.isDigit then
          some (String.mk [c.toLower, 's'], digitsToNat rest2)
        else if rest.all Char.isDigit then
          some (String.mk [c.toLower], digitsToNat rest)
        else none
      | [] => none
    else none

/-- NOTE_MAP of midi-export.ts. -/
def noteMapGet (s : String) : ℕ :=
  if s = "c" then 0 else if s = "cs" then 1
  else if s = "d" then 2 else if s = "ds" then 3
  else if s = "e" then 4 else if s = "f" then 5
  else if s = "fs" then 6 else if s = "g" then 7
  else if s = "gs" then 8 else if s = "a" then 9
  else if s = "as" then 10 else if s = "b" then 11
  else 0

/-- noteToMidi: 60 (middle C) for anything the regex rejects, otherwise
pitch class plus (octave + 1) * 12. -/
def noteToMidi (note : String) : ℕ :=
  match parseNote note with
  | none => 60
  | some (nm, octave) => noteMapGet nm + (octave + 1) * 12

/-- High-order continuation bytes of a variable-length quantity
(while (v > 0) push (v and 0x7F) or 0x80; v >>= 7).  The fuel 10 covers
every value below 2^70, far beyond any tick delta arising here. -/
def vlqHigh : ℕ → ℕ → List ℕ
  | 0, _ => []
  | (fuel+1), v => if v = 0 then [] else (v % 128 + 128) :: vlqHigh fuel (v / 128)

/-- writeVariableLengthQuantity: low 7 bits first, then continuation
bytes, reversed into most-significant-first order. -/
def writeVariableLengthQuantity (value : ℕ) : List ℕ :=
  ((value % 128) :: vlqHigh 10 (value / 128)).reverse

/-- Big-endian 16-bit bytes. -/
def writeInt16BE (value : ℕ) : List ℕ := [(value / 256) % 256, value % 256]

/-- Big-endian 32-bit bytes. -/
def writeInt32BE (value : ℕ) : List ℕ :=
  [(value / 16777216) % 256, (value / 65536) % 256, (value / 256) % 256, value % 256]

/-- An event of the merged absolute-tick list: tick plus raw bytes. -/
structure AbsEvent where
  absoluteTick : ℤ
  data : List ℕ
deriving DecidableEq

/-- Whether an event is a pitch-off (status byte high nibble 0x80). -/
def isNoteOff (e : AbsEvent) : Bool := (e.data.getD 0 0) / 16 = 8

/-- Time-to-tick conversion: round(seconds * tempo / 60 * ticksPerBeat). -/
def timeToTicks (tempo : ℚ) (ticksPerBeat : ℕ) (time : ℚ) : ℤ :=
  jsRound (time * tempo / 60 * (ticksPerBeat : ℚ))

/-- The melody events: for each note a pitch-on at its start tick
(channel 0) and a pitch-off at start + duration ticks, duration ticks
floored at 1; missing or zero durations default to 0.25 s and missing or
zero velocities to 0.8. -/
def melodyEvents (melody : List Note) (tempo : ℚ) (ppq : ℕ) : List AbsEvent :=
  melody.foldl
    (fun acc n =>
      let midiNote := noteToMidi n.note
      let velocity := (jsRound (jsOrQ n.velocity (4/5) * 127)).toNat
      let startTick := timeToTicks tempo ppq n.time
      let durationTicks := max 1 (timeToTicks tempo ppq (jsOrQ n.duration (1/4)))
      acc ++ [⟨startTick, [144, midiNote, velocity]⟩,
              ⟨startTick + durationTicks, [128, midiNote, 0]⟩])
    []

/-- The chord events: one pitch-on/off pair per chord tone on channel 1
(status bytes 0x91/0x81) with fixed velocity 80; missing or zero chord
durations default to 1 s. -/
def chordEvents (chords : List Chord) (tempo : ℚ) (ppq : ℕ) : List AbsEvent :=
  chords.foldl
    (fun acc c =>
      let startTick := timeToTicks tempo ppq c.time
      let durationTicks := max 1 (timeToTicks tempo ppq (jsOrQ c.duration 1))
      acc ++ c.notes.foldl
        (fun acc2 noteStr =>
          let midiNote := noteToMidi noteStr
          acc2 ++ [⟨startTick, [145, midiNote, 80]⟩,
                   ⟨startTick + durationTicks, [129, midiNote, 0]⟩])
        [])
    []

/-- The comparator's at-most relation: earlier tick first, and at equal
ticks a pitch-off never sorts after a pitch-on (ties between two offs or
two ons keep their original order). -/
def evLE (a b : AbsEvent) : Prop :=
  a.absoluteTick < b.absoluteTick ∨
    (a.absoluteTick = b.absoluteTick ∧ (isNoteOff b = true → isNoteOff a = true))

instance : DecidableRel evLE := fun a b => by
  unfold evLE
  infer_instance

instance : IsTotal AbsEvent evLE where
  total a b := by
    unfold evLE
    rcases lt_trichotomy a.absoluteTick b.absoluteTick with h | h | h
    · exact Or.inl (Or.inl h)
    · by_cases hoff : isNoteOff a = true
      · exact Or.inl (Or.inr ⟨h, fun _ => hoff⟩)
      · exact Or.inr (Or.inr ⟨h.symm, fun hb => absurd hb hoff⟩)
    · exact Or.inr (Or.inl h)

instance : IsTrans AbsEvent evLE where
  trans a b c hab hbc := by
    unfold evLE at *
    rcases hab with h1 | ⟨h1, i1⟩ <;> rcases hbc with h2 | ⟨h2, i2⟩
    · exact Or.inl (h1.trans h2)
    · exact Or.inl (h2 ▸ h1)
    · exact Or.inl (h1 ▸ h2)
    · exact Or.inr ⟨h1.trans h2, fun hc => i1 (i2 hc)⟩

/-- The merged, sorted absolute-tick event list.  The JavaScript
Array.prototype.sort is stable; a stable insertion sort with respect to
the same total preorder produces the identical list. -/
def sortedEvents (melody : List Note) (chords : List Chord)
    (tempo : ℚ) (ppq : ℕ) (includeMelody includeChords : Bool) : List AbsEvent :=
  let evs :=
    (if includeMelody then melodyEvents melody tempo ppq else []) ++
    (if includeChords then chordEvents chords tempo ppq else [])
  List.insertionSort evLE evs

/-- Delta encoding: each event's tick becomes the difference from the
previous event's tick, clamped at 0. -/
def toDeltaEvents (evs : List AbsEvent) : List (ℤ × List ℕ) :=
  (evs.foldl
    (fun st e =>
      (st.1 ++ [(max 0 (e.absoluteTick - st.2), e.data)], e.absoluteTick))
    (([], 0) : List (ℤ × List ℕ) × ℤ)).1

/-- createMidiTrack: delta-prefixed events, an end-of-track meta event,
and the MTrk chunk header with the body's byte length. -/
def createMidiTrack (events : List (ℤ × List ℕ)) : List ℕ :=
  let trackData :=
    (events.foldl
      (fun acc e => acc ++ writeVariableLengthQuantity e.1.toNat ++ e.2) []) ++
    writeVariableLengthQuantity 0 ++ [255, 47, 0]
  [77, 84, 114, 107] ++ writeInt32BE trackData.length ++ trackData

/-- The metadata track: tempo meta event (microseconds per beat), a 4/4
time signature, and the track name "Audio Track". -/
def tempoTrackEvents (tempo : ℚ) : List (ℤ × List ℕ) :=
  let microsecondsPerBeat := (jsRound (60000000 / tempo)).toNat
  [(0, [255, 81, 3, (microsecondsPerBeat / 65536) % 256,
        (microsecondsPerBeat / 256) % 256, microsecondsPerBeat % 256]),
   (0, [255, 88, 4, 4, 2, 24, 8]),
   (0, [255, 3, 11, 65, 117, 100, 105, 111, 32, 84, 114, 97, 99, 107])]

/-- exportMelodyToMidi: header chunk (format 1, two tracks, the
pulses-per-quarter-note resolution), tempo track, and the merged
delta-encoded note/chord track. -/
def exportMelodyToMidi (melody : List Note) (chords : List Chord)
    (tempo : ℚ) (ppq : ℕ) (includeMelody includeChords : Bool) : List ℕ :=
  let headerChunk :=
    [77, 84, 104, 100, 0, 0, 0, 6, 0, 1] ++ writeInt16BE 2 ++ writeInt16BE ppq
  let tempoTrack := createMidiTrack (tempoTrackEvents tempo)
  let noteTrack := createMidiTrack
    (toDeltaEvents (sortedEvents melody chords tempo ppq includeMelody includeChords))
  headerChunk ++ tempoTrack ++ noteTrack

/-- Concrete test signal: a unit impulse every 5 samples throughout the
first 1280 samples, silence afterwards.  At 1100 Hz sampling this is a
periodic signal of 220 Hz (= 440 / 2, so the log2 consulted by the name
conversion is exact), whose frame autocorrelation peaks at lag 5. -/
def gen5 (i : ℕ) : ℚ := if i < 1280 ∧ i % 5 = 0 then 1 else 0

/-- A 4098-sample buffer holding the 220 Hz impulse train: exactly one
analysis frame, which detects pitch a3 and leaves a note open for the
final flush. -/
def dataC6 : Buf := ⟨4098, gen5⟩

/-- A 6145-sample buffer: the 220 Hz impulse train in samples 0..1279,
then 64 unit impulses spaced 13 samples apart in samples 4096..4927.
Frame 0 is pitched (a3); frame 2048 is loud (RMS 1/8) but its impulse
spacing of 13 exceeds every candidate autocorrelation lag at 1100 Hz, so
no lag has positive correlation and the detected frequency is 0 - an
unpitched ("rest") frame in mid-note. -/
def dataC2 : Buf :=
  ⟨6145, fun i =>
    if i < 4096 then gen5 i
    else if i < 4928 ∧ (i - 4096) % 13 = 0 then 1 else 0⟩

/-- The pitch-class histogram produced by the runs above: pitch class 9
(the letter a) accumulates the frame RMS. -/
def histA (v : ℚ) : List ℚ := [0, 0, 0, 0, 0, 0, 0, 0, 0, v, 0, 0]

/-- The chord of end-to-end scenario D. -/
def chordC : Chord := ⟨["C4", "E4", "G4"], "C", 0, some 1⟩

theorem linSum_eq_sum (f : ℕ → ℚ) : ∀ (n lo : ℕ),
    linSum f n lo = ∑ i ∈ Finset.range n, f (lo + i) := by
  intro n
  induction n with
  | zero => intro lo; simp [linSum]
  | succ n ih =>
    intro lo
    rw [linSum, Finset.sum_range_succ', ih (lo + 1)]
    rw [add_comm]
    congr 1
    apply Finset.sum_congr rfl
    intro i _
    congr 1
    omega

theorem linSum_congr (f g : ℕ → ℚ) (n lo : ℕ)
    (h : ∀ i, lo ≤ i → i < lo + n → f i = g i) :
    linSum f n lo = linSum g n lo := by
  rw [linSum_eq_sum, linSum_eq_sum]
  apply Finset.sum_congr rfl
  intro i hi
  simp only [Finset.mem_range] at hi
  exact h (lo + i) (Nat.le_add_right lo i) (by omega)

theorem linSum_zero (f : ℕ → ℚ) (n lo : ℕ)
    (h : ∀ i, lo ≤ i → i < lo + n → f i = 0) : linSum f n lo = 0 := by
  rw [linSum_eq_sum]
  apply Finset.sum_eq_zero
  intro i hi
  simp only [Finset.mem_range] at hi
  exact h (lo + i) (Nat.le_add_right lo i) (by omega)

theorem linSum_ite_card (P : ℕ → Prop) [DecidablePred P] (n : ℕ) :
    linSum (fun i => if P i then (1 : ℚ) else 0) n 0
      = ((Finset.range n).filter (fun i => P i)).card := by
  rw [linSum_eq_sum]
  simp [Finset.sum_boole]

theorem card_mod5 : ∀ m : ℕ,
    ((Finset.range m).filter (fun i => i % 5 = 0)).card = (m + 4) / 5 := by
  intro m
  induction m with
  | zero => simp
  | succ m ih =>
    rw [Finset.range_succ, Finset.filter_insert]
    by_cases h : m % 5 = 0
    · rw [if_pos h, Finset.card_insert_of_not_mem (by simp), ih]
      omega
    · rw [if_neg h, ih]
      omega

theorem card_mod13 : ∀ m : ℕ,
    ((Finset.range m).filter (fun i => i % 13 = 0)).card = (m + 12) / 13 := by
  intro m
  induction m with
  | zero => simp
  | succ m ih =>
    rw [Finset.range_succ, Finset.filter_insert]
    by_cases h : m % 13 = 0
    · rw [if_pos h, Finset.card_insert_of_not_mem (by simp), ih]
      omega
    · rw [if_neg h, ih]
      omega

theorem ite_one_mul (p q : Prop) [Decidable p] [Decidable q] :
    (if p then (1 : ℚ) else 0) * (if q then (1 : ℚ) else 0)
      = if p ∧ q then (1 : ℚ) else 0 := by
  split_ifs <;> simp_all

theorem filter_and_lt (n m : ℕ) (P : ℕ → Prop) [DecidablePred P] (h : m ≤ n) :
    ((Finset.range n).filter (fun i => i < m ∧ P i))
      = (Finset.range m).filter P := by
  ext i
  simp only [Finset.mem_filter, Finset.mem_range]
  constructor
  · rintro ⟨-, him, hp⟩
    exact ⟨him, hp⟩
  · rintro ⟨him, hp⟩
    exact ⟨by omega, him, hp⟩

theorem card_filter_shift (P : ℕ → Prop) [DecidablePred P] (a m n : ℕ)
    (h : a + m ≤ n) :
    ((Finset.range n).filter (fun i => a ≤ i ∧ i < a + m ∧ P (i - a))).card
      = ((Finset.range m).filter P).card := by
  apply Finset.card_bij' (fun i _ => i - a) (fun j _ => j + a)
  · intro i hi
    simp only [Finset.mem_filter, Finset.mem_range] at hi ⊢
    obtain ⟨-, ha, hm, hp⟩ := hi
    exact ⟨by omega, hp⟩
  · intro j hj
    simp only [Finset.mem_filter, Finset.mem_range] at hj ⊢
    obtain ⟨hm, hp⟩ := hj
    refine ⟨by omega, by omega, by omega, ?_⟩
    simpa [Nat.add_sub_cancel] using hp
  · intro i hi
    simp only [Finset.mem_filter, Finset.mem_range] at hi
    omega
  · intro j hj
    simp [Nat.add_sub_cancel]

theorem getD_replicate_zero (n i : ℕ) :
    (List.replicate n (0 : ℚ)).getD i 0 = 0 := by
  rcases lt_or_le i n with h | h
  · rw [List.getD_eq_getElem _ _ (by simpa using h)]
    simp
  · rw [List.getD_eq_default]
    simpa using h

theorem foldl_preserve {α σ : Type} (P : σ → Prop) (f : σ → α → σ) :
    ∀ (l : List α) (s : σ), P s → (∀ s a, P s → P (f s a)) →
      P (l.foldl f s)
  | [], s, hs, _ => hs
  | a :: l, s, hs, hstep =>
    foldl_preserve P f l (f s a) (hstep s a hs) hstep

section SmallEval

attribute [local semireducible] Rat.add Rat.mul Rat.sub Rat.inv

theorem jsSqrt_zero : jsSqrt 0 = 0 := by decide

theorem jsSqrt_sixteenth : jsSqrt (1/16) = 1/4 := by decide

theorem jsSqrt_sixtyFourth : jsSqrt (1/64) = 1/8 := by decide

theorem freqNote220 : frequencyToNote 220 = "a3" := by decide

theorem pitchClass220 : frequencyToPitchClass 220 = 9 := by decide

theorem freqNoteZero : frequencyToNote 0 = "rest" := by decide

theorem pitchClassZero : frequencyToPitchClass 0 = -1 := by decide

theorem floor1100over1000 : ((⌊(1100 : ℚ)/1000⌋).toNat) = 1 := by decide

theorem floor1100over80 : ((⌊(1100 : ℚ)/80⌋).toNat) = 13 := by decide

end SmallEval

theorem gen5_sq : linSum (fun i => gen5 i * gen5 i) 4096 0 = 256 := by
  rw [linSum_congr _ (fun i => if i < 1280 ∧ i % 5 = 0 then (1:ℚ) else 0) 4096 0
      (by
        intro i _ _
        show gen5 i * gen5 i = if i < 1280 ∧ i % 5 = 0 then (1:ℚ) else 0
        unfold gen5
        split_ifs <;> norm_num)]
  rw [linSum_ite_card, filter_and_lt 4096 1280 _ (by norm_num), card_mod5]
  norm_num

theorem gen5_corr_off (p : ℕ) (hp : p % 5 ≠ 0) :
    linSum (fun i => gen5 i * gen5 (i + p)) (4096 - p) 0 = 0 := by
  apply linSum_zero
  intro i _ _
  unfold gen5
  split_ifs with h1 h2 h3
  · exfalso; omega
  · norm_num
  · norm_num
  · norm_num

theorem gen5_corr5 : linSum (fun i => gen5 i * gen5 (i + 5)) 4091 0 = 255 := by
  rw [linSum_congr _ (fun i => if i < 1275 ∧ i % 5 = 0 then (1:ℚ) else 0) 4091 0
      (by
        intro i _ _
        unfold gen5
        rw [ite_one_mul]
        apply if_congr _ rfl rfl
        omega)]
  rw [linSum_ite_card, filter_and_lt 4091 1275 _ (by norm_num), card_mod5]
  norm_num

theorem gen5_corr10 : linSum (fun i => gen5 i * gen5 (i + 10)) 4086 0 = 254 := by
  rw [linSum_congr _ (fun i => if i < 1270 ∧ i % 5 = 0 then (1:ℚ) else 0) 4086 0
      (by
        intro i _ _
        unfold gen5
        rw [ite_one_mul]
        apply if_congr _ rfl rfl
        omega)]
  rw [linSum_ite_card, filter_and_lt 4086 1270 _ (by norm_num), card_mod5]
  norm_num

/-- The single frame of dataC6 is exactly the impulse-train generator. -/
theorem frameC6 : frameOf dataC6 0 = ⟨4096, gen5⟩ := by
  unfold frameOf bufSlice dataC6
  congr 1
  funext k
  simp

/-- The first frame of dataC2 agrees with the impulse-train generator on
every index it reads (all below 4096). -/
theorem dataC2_at_low (k : ℕ) (h : k < 4096) : dataC2.at' k = gen5 k := by
  show (if k < 4096 then gen5 k else _) = gen5 k
  rw [if_pos h]

/-- The frame of dataC2 starting at sample 2048, expressed as a shifted
13-spaced impulse train. -/
theorem dataC2_at_shift (k : ℕ) :
    dataC2.at' (2048 + k)
      = if 2048 ≤ k ∧ k < 2880 ∧ (k - 2048) % 13 = 0 then (1:ℚ) else 0 := by
  show (if 2048 + k < 4096 then gen5 (2048 + k)
    else if 2048 + k < 4928 ∧ (2048 + k - 4096) % 13 = 0 then (1:ℚ) else 0) = _
  rcases lt_or_le (2048 + k) 4096 with h | h
  · rw [if_pos h]
    unfold gen5
    rw [if_neg (by omega), if_neg (by omega)]
  · rw [if_neg (by omega)]
    apply if_congr _ rfl rfl
    omega

theorem autoCorrC6_off (p : ℕ) (hp : p % 5 ≠ 0) :
    autoCorr ⟨4096, gen5⟩ p = 0 := gen5_corr_off p hp

theorem autoCorrC6_5 : autoCorr ⟨4096, gen5⟩ 5 = 255 := gen5_corr5

theorem autoCorrC6_10 : autoCorr ⟨4096, gen5⟩ 10 = 254 := gen5_corr10

theorem pitchSearchC6 : pitchSearch ⟨4096, gen5⟩ 1 13 = (5, 255) := by
  have s1 : pitchStep ⟨4096, gen5⟩ (0, 0) 1 = (0, 0) := by
    unfold pitchStep; rw [autoCorrC6_off 1 (by norm_num)]; norm_num
  have s2 : pitchStep ⟨4096, gen5⟩ (0, 0) 2 = (0, 0) := by
    unfold pitchStep; rw [autoCorrC6_off 2 (by norm_num)]; norm_num
  have s3 : pitchStep ⟨4096, gen5⟩ (0, 0) 3 = (0, 0) := by
    unfold pitchStep; rw [autoCorrC6_off 3 (by norm_num)]; norm_num
  have s4 : pitchStep ⟨4096, gen5⟩ (0, 0) 4 = (0, 0) := by
    unfold pitchStep; rw [autoCorrC6_off 4 (by norm_num)]; norm_num
  have s5 : pitchStep ⟨4096, gen5⟩ (0, 0) 5 = (5, 255) := by
    unfold pitchStep; rw [autoCorrC6_5]; norm_num
  have s6 : pitchStep ⟨4096, gen5⟩ (5, 255) 6 = (5, 255) := by
    unfold pitchStep; rw [autoCorrC6_off 6 (by norm_num)]; norm_num
  have s7 : pitchStep ⟨4096, gen5⟩ (5, 255) 7 = (5, 255) := by
    unfold pitchStep; rw [autoCorrC6_off 7 (by norm_num)]; norm_num
  have s8 : pitchStep ⟨4096, gen5⟩ (5, 255) 8 = (5, 255) := by
    unfold pitchStep; rw [autoCorrC6_off 8 (by norm_num)]; norm_num
  have s9 : pitchStep ⟨4096, gen5⟩ (5, 255) 9 = (5, 255) := by
    unfold pitchStep; rw [autoCorrC6_off 9 (by norm_num)]; norm_num
  have s10 : pitchStep ⟨4096, gen5⟩ (5, 255) 10 = (5, 255) := by
    unfold pitchStep; rw [autoCorrC6_10]; norm_num
  have s11 : pitchStep ⟨4096, gen5⟩ (5, 255) 11 = (5, 255) := by
    unfold pitchStep; rw [autoCorrC6_off 11 (by norm_num)]; norm_num
  have s12 : pitchStep ⟨4096, gen5⟩ (5, 255) 12 = (5, 255) := by
    unfold pitchStep; rw [autoCorrC6_off 12 (by norm_num)]; norm_num
  unfold pitchSearch
  rw [show List.range' 1 (13 - 1) = [1, 2, 3, 4, 5, 6, 7, 8, 9, 10, 11, 12] from rfl]
  rw [List.foldl_cons, s1, List.foldl_cons, s2, List.foldl_cons, s3,
    List.foldl_cons, s4, List.foldl_cons, s5, List.foldl_cons, s6,
    List.foldl_cons, s7, List.foldl_cons, s8, List.foldl_cons, s9,
    List.foldl_cons, s10, List.foldl_cons, s11, List.foldl_cons, s12,
    List.foldl_nil]

theorem detectPitchC6 : detectPitch ⟨4096, gen5⟩ 1100 = 220 := by
  unfold detectPitch
  simp only [floor1100over1000, floor1100over80, pitchSearchC6]
  norm_num

theorem frameRmsC6 : frameRms ⟨4096, gen5⟩ = 1/4 := by
  unfold frameRms
  show jsSqrt (linSum (fun j => gen5 j * gen5 j) 4096 0 / ((4096 : ℕ) : ℚ)) = 1/4
  rw [gen5_sq, show (256 : ℚ) / ((4096 : ℕ) : ℚ) = 1/16 by norm_num]
  exact jsSqrt_sixteenth

theorem frameC2F0 : frameOf dataC2 0 = ⟨4096, dataC2.at'⟩ := by
  unfold frameOf bufSlice
  congr 1
  funext k
  simp

theorem frameC2F1 :
    frameOf dataC2 2048 = ⟨4096, fun k => dataC2.at' (2048 + k)⟩ := rfl

theorem autoCorrC2F0 (p : ℕ) (hple : p ≤ 4096) :
    autoCorr ⟨4096, dataC2.at'⟩ p = autoCorr ⟨4096, gen5⟩ p := by
  show linSum (fun i => dataC2.at' i * dataC2.at' (i + p)) (4096 - p) 0
    = linSum (fun i => gen5 i * gen5 (i + p)) (4096 - p) 0
  apply linSum_congr
  intro i h0 hi
  show dataC2.at' i * dataC2.at' (i + p) = gen5 i * gen5 (i + p)
  rw [dataC2_at_low i (by omega), dataC2_at_low (i + p) (by omega)]

theorem foldl_congr_mem {α σ : Type} (f g : σ → α → σ) :
    ∀ (l : List α) (s : σ), (∀ s a, a ∈ l → f s a = g s a) →
      l.foldl f s = l.foldl g s
  | [], _, _ => rfl
  | a :: l, s, h => by
    rw [List.foldl_cons, List.foldl_cons, h s a (List.mem_cons_self a l)]
    exact foldl_congr_mem f g l (g s a)
      (fun s b hb => h s b (List.mem_cons_of_mem a hb))

theorem pitchSearch_congr (f g : Buf) (minP maxP : ℕ)
    (h : ∀ p, minP ≤ p → p < maxP → autoCorr f p = autoCorr g p) :
    pitchSearch f minP maxP = pitchSearch g minP maxP := by
  unfold pitchSearch
  apply foldl_congr_mem
  intro st p hp
  rw [List.mem_range'] at hp
  obtain ⟨k, hk, rfl⟩ := hp
  unfold pitchStep
  rw [h (minP + 1 * k) (by omega) (by omega)]

theorem pitchSearchC2F0 : pitchSearch ⟨4096, dataC2.at'⟩ 1 13 = (5, 255) := by
  rw [pitchSearch_congr ⟨4096, dataC2.at'⟩ ⟨4096, gen5⟩ 1 13
    (fun p h1 h2 => autoCorrC2F0 p (by omega))]
  exact pitchSearchC6

theorem detectPitchC2F0 : detectPitch ⟨4096, dataC2.at'⟩ 1100 = 220 := by
  unfold detectPitch
  simp only [floor1100over1000, floor1100over80, pitchSearchC2F0]
  norm_num

theorem frameRmsC2F0 : frameRms ⟨4096, dataC2.at'⟩ = 1/4 := by
  unfold frameRms
  show jsSqrt (linSum (fun j => dataC2.at' j * dataC2.at' j) 4096 0 / ((4096 : ℕ) : ℚ))
    = 1/4
  rw [linSum_congr _ (fun j => gen5 j * gen5 j) 4096 0
    (by
      intro i _ hi
      show dataC2.at' i * dataC2.at' i = gen5 i * gen5 i
      rw [dataC2_at_low i (by omega)])]
  rw [gen5_sq, show (256 : ℚ) / ((4096 : ℕ) : ℚ) = 1/16 by norm_num]
  exact jsSqrt_sixteenth

theorem autoCorrC2F1 (p : ℕ) (hp1 : 1 ≤ p) (hp2 : p ≤ 12) :
    autoCorr ⟨4096, fun k => dataC2.at' (2048 + k)⟩ p = 0 := by
  show linSum (fun i => dataC2.at' (2048 + i) * dataC2.at' (2048 + (i + p)))
    (4096 - p) 0 = 0
  apply linSum_zero
  intro i _ hi
  show dataC2.at' (2048 + i) * dataC2.at' (2048 + (i + p)) = 0
  rw [dataC2_at_shift i, dataC2_at_shift (i + p)]
  split_ifs with h1 h2 h3
  · exfalso; omega
  · norm_num
  · norm_num
  · norm_num

theorem pitchSearchC2F1 :
    pitchSearch ⟨4096, fun k => dataC2.at' (2048 + k)⟩ 1 13 = (0, 0) := by
  have hstep : ∀ p, 1 ≤ p → p ≤ 12 →
      pitchStep ⟨4096, fun k => dataC2.at' (2048 + k)⟩ (0, 0) p = (0, 0) := by
    intro p h1 h2
    unfold pitchStep
    rw [autoCorrC2F1 p h1 h2]
    norm_num
  unfold pitchSearch
  rw [show List.range' 1 (13 - 1) = [1, 2, 3, 4, 5, 6, 7, 8, 9, 10, 11, 12] from rfl]
  rw [List.foldl_cons, hstep 1 (by norm_num) (by norm_num),
    List.foldl_cons, hstep 2 (by norm_num) (by norm_num),
    List.foldl_cons, hstep 3 (by norm_num) (by norm_num),
    List.foldl_cons, hstep 4 (by norm_num) (by norm_num),
    List.foldl_cons, hstep 5 (by norm_num) (by norm_num),
    List.foldl_cons, hstep 6 (by norm_num) (by norm_num),
    List.foldl_cons, hstep 7 (by norm_num) (by norm_num),
    List.foldl_cons, hstep 8 (by norm_num) (by norm_num),
    List.foldl_cons, hstep 9 (by norm_num) (by norm_num),
    List.foldl_cons, hstep 10 (by norm_num) (by norm_num),
    List.foldl_cons, hstep 11 (by norm_num) (by norm_num),
    List.foldl_cons, hstep 12 (by norm_num) (by norm_num),
    List.foldl_nil]

theorem detectPitchC2F1 :
    detectPitch ⟨4096, fun k => dataC2.at' (2048 + k)⟩ 1100 = 0 := by
  unfold detectPitch
  simp only [floor1100over1000, floor1100over80, pitchSearchC2F1]
  norm_num

theorem frameRmsC2F1 :
    frameRms ⟨4096, fun k => dataC2.at' (2048 + k)⟩ = 1/8 := by
  unfold frameRms
  show jsSqrt (linSum (fun j => dataC2.at' (2048 + j) * dataC2.at' (2048 + j)) 4096 0
    / ((4096 : ℕ) : ℚ)) = 1/8
  rw [linSum_congr _
    (fun j => if 2048 ≤ j ∧ j < 2048 + 832 ∧ (j - 2048) % 13 = 0 then (1:ℚ) else 0)
    4096 0
    (by
      intro i _ _
      show dataC2.at' (2048 + i) * dataC2.at' (2048 + i)
        = if 2048 ≤ i ∧ i < 2048 + 832 ∧ (i - 2048) % 13 = 0 then (1:ℚ) else 0
      rw [dataC2_at_shift i]
      split_ifs <;> norm_num)]
  rw [linSum_ite_card]
  rw [card_filter_shift (fun j => j % 13 = 0) 2048 832 4096 (by norm_num), card_mod13]
  rw [show (((832 + 12) / 13 : ℕ) : ℚ) / ((4096 : ℕ) : ℚ) = 1/64 by norm_num]
  exact jsSqrt_sixtyFourth

section EvalRuns

attribute [local semireducible] Rat.add Rat.mul Rat.sub Rat.inv

theorem melStepC6 :
    melStep dataC6 1100 defaultAnalysisParams melInit 0
      = ⟨[], "a3", 0, histA (1/4)⟩ := by
  simp only [melStep]
  rw [frameC6, frameRmsC6, detectPitchC6, freqNote220, pitchClass220]
  decide

theorem melStepC2F0 :
    melStep dataC2 1100 defaultAnalysisParams melInit 0
      = ⟨[], "a3", 0, histA (1/4)⟩ := by
  simp only [melStep]
  rw [frameC2F0, frameRmsC2F0, detectPitchC2F0, freqNote220, pitchClass220]
  decide

theorem melStepC2F1 :
    melStep dataC2 1100 defaultAnalysisParams ⟨[], "a3", 0, histA (1/4)⟩ 2048
      = ⟨[], "a3", 0, histA (1/4)⟩ := by
  simp only [melStep]
  rw [frameC2F1, frameRmsC2F1, detectPitchC2F1, freqNoteZero, pitchClassZero]
  decide

theorem melFlushC6 :
    melFlush dataC6 1100 defaultAnalysisParams ⟨[], "a3", 0, histA (1/4)⟩
      = ⟨[⟨"a3", 0, some (2049/550), none⟩], "a3", 0, histA (1/4)⟩ := by
  simp only [melFlush, pushIfLong]
  split_ifs with h1 h2
  · simp only [MelState.mk.injEq, List.nil_append, List.cons.injEq, Note.mk.injEq,
      Option.some.injEq, and_true, true_and]
    decide
  · exact absurd (by decide) h2
  · exact absurd (by decide) h1

theorem melFlushC2 :
    melFlush dataC2 1100 defaultAnalysisParams ⟨[], "a3", 0, histA (1/4)⟩
      = ⟨[⟨"a3", 0, some (1229/220), none⟩], "a3", 0, histA (1/4)⟩ := by
  simp only [melFlush, pushIfLong]
  split_ifs with h1 h2
  · simp only [MelState.mk.injEq, List.nil_append, List.cons.injEq, Note.mk.injEq,
      Option.some.injEq, and_true, true_and]
    decide
  · exact absurd (by decide) h2
  · exact absurd (by decide) h1

theorem extractMelodyRaw_unfold (data : Buf) (sr : ℚ) (p : AnalysisParams) :
    extractMelodyRaw data sr p
      = (melFlush data sr p (melLoop data sr p)).notes := rfl

theorem extractMelody_unfold (data : Buf) (sr : ℚ) (p : AnalysisParams) :
    extractMelody data sr p
      = ((extractMelodyRaw data sr p).take 64, (melLoop data sr p).hist) := rfl

theorem melLoopC6 :
    melLoop dataC6 1100 defaultAnalysisParams = ⟨[], "a3", 0, histA (1/4)⟩ := by
  simp only [melLoop]
  rw [show frameIndices dataC6.len = [0] by decide]
  rw [List.foldl_cons, melStepC6, List.foldl_nil]

theorem melLoopC2 :
    melLoop dataC2 1100 defaultAnalysisParams = ⟨[], "a3", 0, histA (1/4)⟩ := by
  simp only [melLoop]
  rw [show frameIndices dataC2.len = [0, 2048] by decide]
  rw [List.foldl_cons, melStepC2F0, List.foldl_cons, melStepC2F1, List.foldl_nil]

theorem extractMelodyRawC6 :
    extractMelodyRaw dataC6 1100 defaultAnalysisParams
      = [⟨"a3", 0, some (2049/550), none⟩] := by
  rw [extractMelodyRaw_unfold, melLoopC6, melFlushC6]

theorem extractMelodyRawC2 :
    extractMelodyRaw dataC2 1100 defaultAnalysisParams
      = [⟨"a3", 0, some (1229/220), none⟩] := by
  rw [extractMelodyRaw_unfold, melLoopC2, melFlushC2]

theorem extractMelodyC6 :
    extractMelody dataC6 1100 defaultAnalysisParams
      = ([⟨"a3", 0, some (2049/550), none⟩], histA (1/4)) := by
  rw [extractMelody_unfold, extractMelodyRawC6, melLoopC6]
  decide

theorem extractMelodyC2 :
    extractMelody dataC2 1100 defaultAnalysisParams
      = ([⟨"a3", 0, some (1229/220), none⟩], histA (1/4)) := by
  rw [extractMelody_unfold, extractMelodyRawC2, melLoopC2]
  decide

end EvalRuns

theorem foldl_preserve_mem {α σ : Type} (P : σ → Prop) (f : σ → α → σ) (l : List α) :
    (∀ s a, a ∈ l → P s → P (f s a)) → ∀ s, P s → P (l.foldl f s) := by
  induction l with
  | nil => intro _ s hs; simpa using hs
  | cons a t ih =>
    intro h s hs
    rw [List.foldl_cons]
    exact ih (fun s2 b hb => h s2 b (List.mem_cons_of_mem a hb)) _
      (h s a (List.mem_cons_self a t) hs)

theorem getD_all_zero (l : List ℚ) (h : ∀ x ∈ l, x = 0) (n : ℕ) : l.getD n 0 = 0 := by
  rcases Nat.lt_or_ge n l.length with hl | hl
  · rw [List.getD_eq_getElem l 0 hl]
    exact h _ (List.getElem_mem hl)
  · exact List.getD_eq_default l 0 hl

theorem beatLoop_zero (os : List ℚ) (step : ℚ) (h : ∀ x ∈ os, x = 0) (beat : ℚ) :
    beatLoop os step beat = 0 := by
  refine beatLoop.induct os step (fun b => beatLoop os step b = 0) ?_ ?_ beat
  · intro x hc ih
    rw [beatLoop, dif_pos hc, ih, getD_all_zero os h, add_zero]
  · intro x hc
    rw [beatLoop, dif_neg hc]

theorem bestOffsetScore_zero (os : List ℚ) (bi : ℚ) (h : ∀ x ∈ os, x = 0) :
    bestOffsetScore os bi = 0 := by
  unfold bestOffsetScore
  refine foldl_preserve_mem (fun s => s = 0) _ _ ?_ 0 rfl
  intro s a _ hs
  rw [hs, beatLoop_zero os bi h, max_self]

theorem tempoBpmFold_bounds (os : List ℚ) (sr : ℚ) :
    ∃ n : ℕ, 60 ≤ n ∧ n ≤ 200 ∧ (tempoBpmFold os sr).1 = (n : ℚ) := by
  unfold tempoBpmFold
  refine foldl_preserve_mem
    (fun st : ℚ × ℚ => ∃ n : ℕ, 60 ≤ n ∧ n ≤ 200 ∧ st.1 = (n : ℚ)) _ _ ?_ _
    ⟨120, by norm_num, by norm_num, by norm_num⟩
  intro st bpm hmem hst
  obtain ⟨h1, h2⟩ := List.mem_range'_1.mp hmem
  dsimp only
  split_ifs
  · exact ⟨bpm, h1, by omega, rfl⟩
  · exact hst

theorem tempoBpmFold_zero (os : List ℚ) (sr : ℚ) (h : ∀ x ∈ os, x = 0) :
    tempoBpmFold os sr = (120, 0) := by
  unfold tempoBpmFold
  refine foldl_preserve_mem (fun st : ℚ × ℚ => st = (120, 0)) _ _ ?_ _ rfl
  intro st bpm _ hst
  dsimp only
  rw [bestOffsetScore_zero os _ h, hst]
  norm_num

theorem detectTempo_bounds (data : Buf) (sr : ℚ) :
    ∃ n : ℕ, 60 ≤ n ∧ n ≤ 200 ∧ detectTempo data sr = (n : ℚ) := by
  simp only [detectTempo]
  exact tempoBpmFold_bounds _ sr

theorem detectTempo_silent (data : Buf) (sr : ℚ) (h : ∀ i, data.at' i = 0) :
    detectTempo data sr = 120 := by
  simp only [detectTempo]
  have hE : ∀ x ∈ (tempoFrameStarts data.len).map
      (fun i => jsSqrt (linSum (fun j => data.at' (i + j) * data.at' (i + j)) 1024 0 / 1024)),
      x = 0 := by
    intro x hx
    obtain ⟨i, _, rfl⟩ := List.mem_map.mp hx
    rw [linSum_zero _ _ _ (fun j _ _ => by rw [h, zero_mul]), zero_div]
    exact jsSqrt_zero
  rw [tempoBpmFold_zero _ sr ?_]
  · intro x hx
    obtain ⟨p, hp, rfl⟩ := List.mem_map.mp hx
    obtain ⟨a, b⟩ := p
    obtain ⟨ha, hb⟩ := List.of_mem_zip hp
    rw [hE a ha, hE b (List.mem_of_mem_tail hb)]
    norm_num

theorem foldUp_ge (t : ℚ) (ht : 0 < t) : 60 ≤ foldUp t := by
  induction t using foldUp.induct with
  | case1 t hc ih =>
    rw [foldUp, dif_pos hc]
    exact ih (by linarith [hc.1])
  | case2 t hc =>
    rw [foldUp, dif_neg hc]
    by_contra hlt
    exact hc ⟨ht, by linarith⟩

theorem foldDown_le (t : ℚ) : foldDown t ≤ 200 := by
  induction t using foldDown.induct with
  | case1 t hc ih => rw [foldDown, dif_pos hc]; exact ih
  | case2 t hc => rw [foldDown, dif_neg hc]; linarith [not_lt.mp hc]

theorem foldDown_ge (t : ℚ) (h : 60 ≤ t) : 60 ≤ foldDown t := by
  induction t using foldDown.induct with
  | case1 t hc ih => rw [foldDown, dif_pos hc]; exact ih (by linarith)
  | case2 t hc => rw [foldDown, dif_neg hc]; exact h

theorem jsRound_ge (q : ℚ) (a : ℤ) (h : (a : ℚ) ≤ q) : a ≤ jsRound q := by
  unfold jsRound
  exact Int.le_floor.mpr (by push_cast; linarith)

theorem jsRound_le (q : ℚ) (b : ℤ) (h : q ≤ (b : ℚ)) : jsRound q ≤ b := by
  unfold jsRound
  have hb : ⌊q + 1/2⌋ < b + 1 := Int.floor_lt.mpr (by push_cast; linarith)
  omega

theorem chain_zip_tail {R : ℚ → ℚ → Prop} :
    ∀ (l : List ℚ), l.Chain' R → ∀ p ∈ l.zip l.tail, R p.1 p.2 := by
  intro l
  induction l with
  | nil => intro _ p hp; simp at hp
  | cons a t ih =>
    intro hch p hp
    cases t with
    | nil => simp at hp
    | cons b t2 =>
      rcases List.mem_cons.mp hp with rfl | hp2
      · exact (List.chain'_cons.mp hch).1
      · exact ih (List.chain'_cons.mp hch).2 p hp2

theorem foldl_add_pos :
    ∀ (l : List ℚ) (init : ℚ), 0 ≤ init → (∀ x ∈ l, 0 < x) → l ≠ [] →
      0 < l.foldl (· + ·) init := by
  intro l
  induction l with
  | nil => intro _ _ _ hne; exact absurd rfl hne
  | cons a t ih =>
    intro init hinit hall _
    rw [List.foldl_cons]
    have ha := hall a (List.mem_cons_self a t)
    rcases eq_or_ne t [] with rfl | hne
    · rw [List.foldl_nil]; linarith
    · exact ih (init + a) (by linarith) (fun x hx => hall x (List.mem_cons_of_mem a hx)) hne

theorem onsetTimes_chain (E : List ℚ) (ws : ℕ) (sr : ℚ) (hws : 0 < ws) (hsr : 0 < sr) :
    (onsetTimes E ws sr).Chain' (· < ·) := by
  unfold onsetTimes
  apply List.Pairwise.chain'
  rw [List.pairwise_map]
  have hp : List.Pairwise (· < ·) (List.range' 1 (E.length - 1)) :=
    List.pairwise_lt_range' 1 (E.length - 1)
  refine (hp.filter _).imp ?_
  intro a b hab
  have hcast : (a : ℚ) < (b : ℚ) := by exact_mod_cast hab
  have hwq : (0 : ℚ) < (ws : ℚ) := by exact_mod_cast hws
  have h1 : (a : ℚ) * (ws : ℚ) < (b : ℚ) * (ws : ℚ) := by
    exact mul_lt_mul_of_pos_right hcast hwq
  gcongr

theorem detectTempoB_silent (data : Buf) (sr : ℚ) (h : ∀ i, data.at' i = 0) :
    detectTempoB data sr = 120 := by
  simp only [detectTempoB]
  have hE : ∀ x ∈ energyList data (tempoWindow sr), x = 0 := by
    intro x hx
    simp only [energyList] at hx
    obtain ⟨k, _, rfl⟩ := List.mem_map.mp hx
    exact linSum_zero _ _ _ (fun j _ _ => by rw [h, zero_mul])
  have hnil : onsetTimes (energyList data (tempoWindow sr)) (tempoWindow sr) sr = [] := by
    unfold onsetTimes
    have hfil : (List.range' 1 ((energyList data (tempoWindow sr)).length - 1)).filter
        (fun i => decide ((energyList data (tempoWindow sr)).getD i 0 >
            (energyList data (tempoWindow sr)).getD (i - 1) 0 * (3/2))
          && decide ((energyList data (tempoWindow sr)).getD i 0 > 1/100)) = [] := by
      rw [List.filter_eq_nil]
      intro a _
      rw [getD_all_zero _ hE, getD_all_zero _ hE]
      simp only [Bool.and_eq_true, decide_eq_true_eq, not_and]
      intro h1
      norm_num at h1
    rw [hfil, List.map_nil]
  rw [hnil]
  norm_num

theorem detectTempoB_bounds (data : Buf) (sr : ℚ) (hsr : 20 ≤ sr) :
    ∃ n : ℤ, 60 ≤ n ∧ n ≤ 200 ∧ detectTempoB data sr = (n : ℚ) := by
  have hsr0 : 0 < sr := by linarith
  have hws : 0 < tempoWindow sr := by
    unfold tempoWindow
    have h1 : (1 : ℤ) ≤ ⌊sr * (5/100)⌋ := Int.le_floor.mpr (by push_cast; linarith)
    omega
  simp only [detectTempoB]
  set o := onsetTimes (energyList data (tempoWindow sr)) (tempoWindow sr) sr with ho
  by_cases hlen : o.length < 2
  · exact ⟨120, by norm_num, by norm_num, by rw [if_pos hlen]; norm_num⟩
  · rw [if_neg hlen]
    have hchain : o.Chain' (· < ·) := by
      rw [ho]
      exact onsetTimes_chain _ _ _ hws hsr0
    set ivs := (o.zip o.tail).map (fun p => p.2 - p.1) with hivs
    have hall : ∀ x ∈ ivs, 0 < x := by
      intro x hx
      obtain ⟨p, hp, rfl⟩ := List.mem_map.mp hx
      have := chain_zip_tail o hchain p hp
      linarith
    have hne : ivs ≠ [] := by
      apply List.length_pos.mp
      rw [hivs, List.length_map, List.length_zip, List.length_tail]
      omega
    have havg : 0 < ivs.foldl (· + ·) 0 / (ivs.length : ℚ) := by
      apply div_pos (foldl_add_pos ivs 0 le_rfl hall hne)
      exact_mod_cast List.length_pos.mpr hne
    have ht : 0 < 60 / (ivs.foldl (· + ·) 0 / (ivs.length : ℚ)) := by positivity
    refine ⟨jsRound (foldDown (foldUp
      (60 / (ivs.foldl (· + ·) 0 / (ivs.length : ℚ))))), ?_, ?_, rfl⟩
    · apply jsRound_ge
      push_cast
      exact foldDown_ge _ (foldUp_ge _ ht)
    · apply jsRound_le
      push_cast
      exact foldDown_le _

theorem pushIfLong_pred (Q : Note → Prop) (p : AnalysisParams) (notes : List Note)
    (nm : String) (s e : ℚ)
    (hnew : ∀ d, minDurationOf p < d → Q ⟨nm, s, some d, none⟩)
    (h : ∀ n ∈ notes, Q n) :
    ∀ n ∈ pushIfLong p notes nm s e, Q n := by
  unfold pushIfLong
  split_ifs with hd
  · intro n hn
    rcases List.mem_append.mp hn with hn | hn
    · exact h n hn
    · rcases List.mem_singleton.mp hn with rfl
      exact hnew (e - s) hd
  · exact h

theorem melStep_notes_cases (data : Buf) (sr : ℚ) (p : AnalysisParams)
    (st : MelState) (i : ℕ) :
    (melStep data sr p st i).notes = st.notes ∨
    (melStep data sr p st i).notes =
      pushIfLong p st.notes st.lastNote st.noteStartTime ((i : ℚ) / sr) := by
  simp only [melStep]
  by_cases h1 : frameRms (frameOf data i) < rmsThreshold p
  · rw [if_pos h1]
    by_cases h2 : st.lastNote ≠ "" ∧ st.lastNote ≠ "rest"
    · rw [if_pos h2]; right; rfl
    · rw [if_neg h2]; left; rfl
  · rw [if_neg h1]
    by_cases h3 : frequencyToNote (detectPitch (frameOf data i) sr) ≠ "rest" ∧
        frequencyToNote (detectPitch (frameOf data i) sr) ≠ st.lastNote
    · rw [if_pos h3]
      by_cases h4 : st.lastNote ≠ "" ∧ st.lastNote ≠ "rest"
      · rw [if_pos h4]; right; rfl
      · rw [if_neg h4]; left; rfl
    · rw [if_neg h3]; left; rfl

theorem melFlush_notes_cases (data : Buf) (sr : ℚ) (p : AnalysisParams)
    (st : MelState) :
    (melFlush data sr p st).notes = st.notes ∨
    (melFlush data sr p st).notes =
      pushIfLong p st.notes st.lastNote st.noteStartTime ((data.len : ℚ) / sr) := by
  simp only [melFlush]
  by_cases h1 : st.lastNote ≠ "" ∧ st.lastNote ≠ "rest"
  · rw [if_pos h1]; right; rfl
  · rw [if_neg h1]; left; rfl

theorem melStep_pred (Q : Note → Prop) (data : Buf) (sr : ℚ) (p : AnalysisParams)
    (st : MelState) (i : ℕ)
    (hnew : ∀ nm s d, minDurationOf p < d → Q ⟨nm, s, some d, none⟩)
    (h : ∀ n ∈ st.notes, Q n) :
    ∀ n ∈ (melStep data sr p st i).notes, Q n := by
  intro n hn
  rcases melStep_notes_cases data sr p st i with hc | hc <;> rw [hc] at hn
  · exact h n hn
  · exact pushIfLong_pred Q p st.notes st.lastNote st.noteStartTime _
      (hnew st.lastNote st.noteStartTime) h n hn

theorem melFlush_pred (Q : Note → Prop) (data : Buf) (sr : ℚ) (p : AnalysisParams)
    (st : MelState)
    (hnew : ∀ nm s d, minDurationOf p < d → Q ⟨nm, s, some d, none⟩)
    (h : ∀ n ∈ st.notes, Q n) :
    ∀ n ∈ (melFlush data sr p st).notes, Q n := by
  intro n hn
  rcases melFlush_notes_cases data sr p st with hc | hc <;> rw [hc] at hn
  · exact h n hn
  · exact pushIfLong_pred Q p st.notes st.lastNote st.noteStartTime _
      (hnew st.lastNote st.noteStartTime) h n hn

theorem extractMelodyRaw_pred (Q : Note → Prop) (data : Buf) (sr : ℚ)
    (p : AnalysisParams)
    (hnew : ∀ nm s d, minDurationOf p < d → Q ⟨nm, s, some d, none⟩) :
    ∀ n ∈ extractMelodyRaw data sr p, Q n := by
  rw [extractMelodyRaw_unfold]
  apply melFlush_pred Q data sr p _ hnew
  unfold melLoop
  have hstep : ∀ (st : MelState) (i : ℕ), (∀ n ∈ st.notes, Q n) →
      ∀ n ∈ (melStep data sr p st i).notes, Q n :=
    fun st i hst => melStep_pred Q data sr p st i hnew hst
  have hinit : ∀ n ∈ melInit.notes, Q n := by
    intro n hn
    simp [melInit] at hn
  exact foldl_preserve (fun st : MelState => ∀ n ∈ st.notes, Q n)
    (melStep data sr p) (frameIndices data.len) melInit hinit hstep

theorem jsRound_intCast (k : ℤ) : jsRound (k : ℚ) = k := by
  unfold jsRound
  rw [Int.floor_eq_iff]
  constructor
  · push_cast
    linarith
  · push_cast
    linarith

theorem string_ne_empty_of_length (s : String) (h : s.length ≠ 0) : s ≠ "" := by
  intro he
  rw [he] at h
  exact h rfl

/-- Claim C2 (amended): a frame that is loud enough (RMS not below the
threshold) but whose detected frequency lies below the 50 Hz floor is
named "rest", and the segmenter then leaves the whole state - including
any in-progress note - untouched: the rest frame does not close the
note. -/
theorem C2_rest_keeps_note_open (data : Buf) (sr : ℚ) (params : AnalysisParams)
    (st : MelState) (i : ℕ)
    (hloud : ¬ frameRms (frameOf data i) < rmsThreshold params)
    (hlow : detectPitch (frameOf data i) sr < 50) :
    melStep data sr params st i = st := by
  simp only [melStep]
  rw [if_neg hloud]
  have hnote : frequencyToNote (detectPitch (frameOf data i) sr) = "rest" := by
    unfold frequencyToNote
    rw [if_pos hlow]
  have hpc : frequencyToPitchClass (detectPitch (frameOf data i) sr) = -1 := by
    unfold frequencyToPitchClass
    rw [if_pos hlow]
  rw [hnote, hpc, if_neg (by simp), if_neg (by decide)]

/-- Claim C2, witness: on the 6145-sample two-regime buffer the frame at
2048 is loud but unpitched, and the segmenter state passes through it
unchanged. -/
theorem C2_witness :
    melStep dataC2 1100 defaultAnalysisParams melInit 2048 = melInit :=
  C2_rest_keeps_note_open dataC2 1100 defaultAnalysisParams melInit 2048
    (by
      rw [frameC2F1, frameRmsC2F1]
      norm_num [rmsThreshold, defaultAnalysisParams])
    (by
      rw [frameC2F1, detectPitchC2F1]
      norm_num)

/-- Claim C2, counterexample to the spec's sentence: the frame of dataC2
at sample 2048 has RMS 1/8 (well above the default threshold 7/1000) but
detected frequency 0 (below the 50 Hz floor, outside every plausibility
band); with the note "a3" in progress the segmenter state is unchanged -
the note is not closed at that frame - and the full pipeline emits one
note spanning the whole buffer, rest frame included. -/
theorem C2_counterexample :
    (¬ frameRms (frameOf dataC2 2048) < rmsThreshold defaultAnalysisParams) ∧
    detectPitch (frameOf dataC2 2048) 1100 = 0 ∧
    melStep dataC2 1100 defaultAnalysisParams ⟨[], "a3", 0, histA (1/4)⟩ 2048
      = ⟨[], "a3", 0, histA (1/4)⟩ ∧
    extractMelody dataC2 1100 defaultAnalysisParams
      = ([⟨"a3", 0, some (1229/220), none⟩], histA (1/4)) := by
  refine ⟨?_, ?_, melStepC2F1, extractMelodyC2⟩
  · rw [frameC2F1, frameRmsC2F1]
    norm_num [rmsThreshold, defaultAnalysisParams]
  · rw [frameC2F1]
    exact detectPitchC2F1

/-- Claim C3: the melody returned by extractMelody is the first 64 notes
of the segmentation, so its length is min 64 (raw length) - in
particular always at most 64, and exactly 64 whenever the segmentation
produced more. -/
theorem C3_melody_cap (data : Buf) (sr : ℚ) (p : AnalysisParams) :
    (extractMelody data sr p).1 = (extractMelodyRaw data sr p).take 64 ∧
    (extractMelody data sr p).1.length = min 64 (extractMelodyRaw data sr p).length ∧
    (extractMelody data sr p).1.length ≤ 64 := by
  rw [extractMelody_unfold]
  refine ⟨rfl, ?_, ?_⟩
  · show ((extractMelodyRaw data sr p).take 64).length = _
    exact List.length_take 64 _
  · show ((extractMelodyRaw data sr p).take 64).length ≤ 64
    rw [List.length_take]
    exact Nat.min_le_left _ _

/-- Claim C4: both detectTempo variants return a BPM that is an integer
between 60 and 200 inclusive, and both return exactly 120 on silent
(all-zero) input; the batch variant's bound needs a sample rate of at
least 20 Hz (a positive window). -/
theorem C4_tempo_bounds (data : Buf) (sr : ℚ) :
    (∃ n : ℕ, 60 ≤ n ∧ n ≤ 200 ∧ detectTempo data sr = (n : ℚ)) ∧
    ((∀ i, data.at' i = 0) → detectTempo data sr = 120) ∧
    (20 ≤ sr → ∃ n : ℤ, 60 ≤ n ∧ n ≤ 200 ∧ detectTempoB data sr = (n : ℚ)) ∧
    ((∀ i, data.at' i = 0) → detectTempoB data sr = 120) :=
  ⟨detectTempo_bounds data sr,
   fun h => detectTempo_silent data sr h,
   fun h => detectTempoB_bounds data sr h,
   fun h => detectTempoB_silent data sr h⟩

/-- Claim C4, witness: on a silent 2048-sample buffer at 44100 Hz both
variants return 120, and the batch variant's bpm is an integer in
60..200. -/
theorem C4_witness :
    detectTempo ⟨2048, fun _ => 0⟩ 44100 = 120 ∧
    detectTempoB ⟨2048, fun _ => 0⟩ 44100 = 120 ∧
    (∃ n : ℤ, 60 ≤ n ∧ n ≤ 200 ∧ detectTempoB ⟨2048, fun _ => 0⟩ 44100 = (n : ℚ)) :=
  ⟨(C4_tempo_bounds ⟨2048, fun _ => 0⟩ 44100).2.1 (fun _ => rfl),
   (C4_tempo_bounds ⟨2048, fun _ => 0⟩ 44100).2.2.2 (fun _ => rfl),
   (C4_tempo_bounds ⟨2048, fun _ => 0⟩ 44100).2.2.1 (by norm_num)⟩

/-- Claim C6 (amended): every note the part_000 segmenter emits has NO
velocity (the pushed object carries only note, time and duration), and
its duration is present and strictly greater than the minimum-duration
threshold. -/
theorem C6_emitted_notes_shape (data : Buf) (sr : ℚ) (p : AnalysisParams) :
    ∀ n ∈ (extractMelody data sr p).1,
      n.velocity = none ∧ ∃ d, n.duration = some d ∧ minDurationOf p < d := by
  intro n hn
  rw [extractMelody_unfold] at hn
  have hn2 : n ∈ extractMelodyRaw data sr p := List.mem_of_mem_take hn
  exact extractMelodyRaw_pred
    (fun n => n.velocity = none ∧ ∃ d, n.duration = some d ∧ minDurationOf p < d)
    data sr p (fun nm s d hd => ⟨rfl, d, rfl, hd⟩) n hn2

/-- Claim C6, witness: the single note of the dataC6 run satisfies the
amended shape. -/
theorem C6_witness :
    (⟨"a3", 0, some (2049/550), none⟩ : Note).velocity = none ∧
    ∃ d, (⟨"a3", 0, some (2049/550), none⟩ : Note).duration = some d ∧
      minDurationOf defaultAnalysisParams < d :=
  C6_emitted_notes_shape dataC6 1100 defaultAnalysisParams
    ⟨"a3", 0, some (2049/550), none⟩
    (by rw [extractMelodyC6]; exact List.mem_singleton_self _)

/-- Claim C6, counterexample to the spec's sentence: the dataC6 run emits
a note, and its velocity is undefined (none) rather than an RMS-derived
value in [0, 1]. -/
theorem C6_counterexample :
    (extractMelody dataC6 1100 defaultAnalysisParams).1.map Note.velocity
      = [none] := by
  rw [extractMelodyC6]
  rfl

/-- Claim C10: the pitch-name-to-key conversion of the sequence-file
encoder is total - any string the regex rejects maps to the fixed key 60
(middle C) instead of failing. -/
theorem C10_noteToMidi_total (s : String) (h : parseNote s = none) :
    noteToMidi s = 60 := by
  unfold noteToMidi
  rw [h]

/-- Claim C10, witness: the regex rejects "c#4" (its sharp uses '#', not
's'), and the conversion returns 60 on it. -/
theorem C10_witness : parseNote "c#4" = none ∧ noteToMidi "c#4" = 60 :=
  ⟨by decide, C10_noteToMidi_total "c#4" (by decide)⟩

/-- Claim C7: quantization is idempotent for every positive tempo -
re-quantizing an already-quantized melody at the same tempo and grid
value returns it unchanged. -/
theorem C7_quantize_idempotent (notes : List Note) (tempo : ℚ) (qv : String)
    (ht : 0 < tempo) :
    quantizeNotes (quantizeNotes notes tempo qv) tempo qv
      = quantizeNotes notes tempo qv := by
  simp only [quantizeNotes]
  split_ifs with hq
  · rfl
  · have hgpos : 0 < 60 / tempo * quantizeMapGet qv := by
      apply mul_pos (by positivity)
      unfold quantizeMapGet
      split_ifs <;> norm_num
    set g := 60 / tempo * quantizeMapGet qv with hg
    rw [List.map_map]
    apply List.map_congr_left
    intro n _
    simp only [Function.comp_apply]
    have hgne : g ≠ 0 := ne_of_gt hgpos
    have htime : (jsRound ((jsRound (n.time / g) : ℚ) * g / g) : ℚ) * g
        = (jsRound (n.time / g) : ℚ) * g := by
      rw [mul_div_cancel_right₀ _ hgne, jsRound_intCast]
    simp only [Note.mk.injEq, true_and, and_true]
    refine ⟨htime, ?_⟩
    rcases n.duration with _ | d
    · rfl
    · dsimp only
      rcases eq_or_ne d 0 with rfl | hd0
      · rw [if_pos rfl]
      · rw [if_neg hd0]
        dsimp only
        set m := jsRound (d / g) with hm
        have hmax : max g ((m : ℚ) * g) = ((max 1 m : ℤ) : ℚ) * g := by
          push_cast
          rw [max_mul_of_nonneg _ _ (le_of_lt hgpos), one_mul]
        have hvne : max g ((m : ℚ) * g) ≠ 0 :=
          ne_of_gt (lt_of_lt_of_le hgpos (le_max_left _ _))
        rw [if_neg hvne, hmax, mul_div_cancel_right₀ _ hgne, jsRound_intCast]
        push_cast
        rw [max_mul_of_nonneg _ _ (le_of_lt hgpos), one_mul, ← max_assoc, max_self]

/-- Claim C7, witness: re-quantizing the quantized dataC6 melody at
tempo 120 and grid 1/16 is the identity. -/
theorem C7_witness :
    quantizeNotes (quantizeNotes [⟨"a3", 0, some (2049/550), none⟩] 120 "1/16")
        120 "1/16"
      = quantizeNotes [⟨"a3", 0, some (2049/550), none⟩] 120 "1/16" :=
  C7_quantize_idempotent [⟨"a3", 0, some (2049/550), none⟩] 120 "1/16"
    (by norm_num)

/-- Claim C8: the merged absolute-tick event list of the sequence-file
encoder is pairwise ordered: ticks never decrease, and at equal ticks a
pitch-off is never preceded by a pitch-on - the off sorts first. -/
theorem C8_events_sorted (melody : List Note) (chords : List Chord) (tempo : ℚ)
    (ppq : ℕ) (im ic : Bool) :
    (sortedEvents melody chords tempo ppq im ic).Pairwise
        (fun a b => a.absoluteTick ≤ b.absoluteTick) ∧
    (sortedEvents melody chords tempo ppq im ic).Pairwise evLE := by
  have h : (sortedEvents melody chords tempo ppq im ic).Pairwise evLE := by
    unfold sortedEvents
    exact List.sorted_insertionSort evLE _
  refine ⟨h.imp ?_, h⟩
  intro a b hab
  rcases hab with h1 | ⟨h1, _⟩
  · exact le_of_lt h1
  · exact le_of_eq h1

/-- Claim C9: on an empty melody and/or chord list the pattern generator
emits the fixed rest pattern for the empty part, and all three outputs
are nonempty strings for every input. -/
theorem C9_strudel_empty (melody : List Note) (chords : List Chord) (tempo : ℚ)
    (ts : String) :
    (melody = [] →
      (generateStrudelCode melody chords tempo ts).melody
        = "note(\"~\").sound(\"piano\")") ∧
    (chords = [] →
      (generateStrudelCode melody chords tempo ts).chords
        = "note(\"~\").sound(\"piano\")") ∧
    (generateStrudelCode melody chords tempo ts).melody ≠ "" ∧
    (generateStrudelCode melody chords tempo ts).chords ≠ "" ∧
    (generateStrudelCode melody chords tempo ts).combined ≠ "" := by
  simp only [generateStrudelCode]
  refine ⟨?_, ?_, ?_, ?_, ?_⟩
  · intro h
    subst h
    simp
  · intro h
    subst h
    simp
  · dsimp only
    split_ifs with hc
    · apply string_ne_empty_of_length
      rw [String.length_append, String.length_append]
      have h7 : ("note(\"" : String).length = 6 := by decide
      omega
    · decide
  · dsimp only
    split_ifs with hc
    · apply string_ne_empty_of_length
      rw [String.length_append, String.length_append]
      have h7 : ("note(\"" : String).length = 6 := by decide
      omega
    · decide
  · dsimp only
    apply string_ne_empty_of_length
    simp only [String.length_append]
    have h10 : ("// Tempo: " : String).length = 10 := by decide
    omega

/-- Claim C9, witness: the empty melody and chord list produce the two
rest patterns. -/
theorem C9_witness :
    (generateStrudelCode [] [] 120 "4/4").melody
        = "note(\"~\").sound(\"piano\")" ∧
    (generateStrudelCode [] [] 120 "4/4").chords
        = "note(\"~\").sound(\"piano\")" :=
  ⟨(C9_strudel_empty [] [] 120 "4/4").1 rfl,
   (C9_strudel_empty [] [] 120 "4/4").2.1 rfl⟩

section ConcreteClaims

attribute [local semireducible] Rat.add Rat.mul Rat.sub Rat.inv

/-- Claim C1 (amended): encoding the chord C4-E4-G4 of duration 1 s at
tempo 120, ppq 480 yields three pitch-on events (status 0x91, the chord
channel) at tick 0 and three matching pitch-offs (status 0x81) at tick
960 - one second at 120 BPM is two beats, i.e. 2 x 480 ticks - and the
delta encoding and the variable-length quantity of 960 are exact. -/
theorem C1_chord_export :
    sortedEvents [] [chordC] 120 480 true true
      = [⟨0, [145, 60, 80]⟩, ⟨0, [145, 64, 80]⟩, ⟨0, [145, 67, 80]⟩,
         ⟨960, [129, 60, 0]⟩, ⟨960, [129, 64, 0]⟩, ⟨960, [129, 67, 0]⟩] ∧
    toDeltaEvents (sortedEvents [] [chordC] 120 480 true true)
      = [(0, [145, 60, 80]), (0, [145, 64, 80]), (0, [145, 67, 80]),
         (960, [129, 60, 0]), (0, [129, 64, 0]), (0, [129, 67, 0])] ∧
    writeVariableLengthQuantity 960 = [135, 64] := by
  refine ⟨by decide, by decide, by decide⟩

/-- Claim C1, counterexample to the spec's sentence: every pitch-off of
the encoded chord sits at absolute tick 960, not at the claimed 480. -/
theorem C1_counterexample :
    ((sortedEvents [] [chordC] 120 480 true true).filter
        (fun e => isNoteOff e)).map AbsEvent.absoluteTick = [960, 960, 960] ∧
    (960 : ℤ) ≠ 480 := by
  refine ⟨by decide, by decide⟩

/-- Claim C5: on the degenerate all-zero pitch-class histogram the
single-file page's detectKey returns the default "C", and the batch
page's detectKey returns "C" on an empty note list. -/
theorem C5_detectKey_default :
    detectKey (List.replicate 12 0) = "C" ∧ detectKeyB [] = "C" := by
  refine ⟨by decide, by decide⟩

end ConcreteClaims

end A2S
